import Mathlib

/-!
Verification development for the transaction-categorization service
(`mvp/src`).  The HTTP layer is embedded from `mvp/src/api.py`.  The
classification core (`inference.py`, `preprocessing.py`, `config_loader.py`)
is imported by `api.py` but its source is not part of the visible tree, so
those operations are modelled from the specification, as indicated in the
doc comment of each such definition.
-/

namespace FinCat

/-! ### Normalizer (`preprocessing.normalize_text`) -/

/-- A character that survives normalization: a basic-latin letter or a digit.
Everything else (whitespace, punctuation) acts as a token separator. -/
def isWordChar (c : Char) : Bool := c.isAlpha || c.isDigit

/-- Modelled from the spec: `preprocessing.normalize_text` is absent from the
tree; §4.1 requires splitting the lower-cased input into maximal runs of
load-bearing characters (letters and digits are kept, punctuation and
whitespace separate tokens).  This returns those runs, in order. -/
def tokenizeChars (l : List Char) : List (List Char) :=
  (List.splitOnP (fun c => !isWordChar c) l).filter (fun t => !t.isEmpty)

/-- Token lists of the case-folded input. -/
def normTokens (l : List Char) : List (List Char) :=
  tokenizeChars (l.map Char.toLower)

/-- Modelled from the spec: §4.1 — case-fold, strip punctuation (keep
digits), collapse whitespace.  Tokens are re-joined with single spaces. -/
def normalizeChars (l : List Char) : List Char :=
  List.intercalate [' '] (normTokens l)

/-- Modelled from the spec: `preprocessing.normalize_text`, the canonical
form used for every comparison in the pipeline. -/
def normalize_text (s : String) : String :=
  String.mk (normalizeChars s.data)

/-! ### Data model (§3) -/

structure Category where
  id : String
  name : String
  keywords : List String
deriving DecidableEq

structure Taxonomy where
  categories : List Category
deriving DecidableEq

/-- The set of valid prediction targets. -/
def Taxonomy.ids (tax : Taxonomy) : List String :=
  tax.categories.map Category.id

/-- The reserved sentinel meaning "unknown" (not itself a Category). -/
def UNKNOWN_ID : String := "UNKNOWN"

/-- The fixed human-readable name shown for abstained predictions. -/
def UNKNOWN_NAME : String := "Unknown"

structure Example where
  raw_text : String
  normalized_text : String
  category_id : String
  merchant : Option String
  amount : Option ℚ
deriving DecidableEq

structure Neighbor where
  description : String
  category_id : String
  similarity : ℚ
deriving DecidableEq

structure Explanation where
  top_neighbors : List Neighbor
  keyword_matches : List (String × String)
  rationale : String
deriving DecidableEq

structure PredictionResult where
  description : String
  predicted_category_id : String
  predicted_category_name : String
  confidence : ℚ
  is_low_confidence : Bool
  is_unknown : Bool
  explanation : Explanation
deriving DecidableEq

structure Settings where
  confidence_threshold : ℚ
  unknown_threshold : ℚ
  k : Nat
  random_seed : Nat
deriving DecidableEq

/-- §4.5/§7: configuration accepted at load time — the unknown threshold is a
strictly positive bound strictly below the low-confidence threshold. -/
def Settings.valid (s : Settings) : Prop :=
  0 < s.unknown_threshold ∧ s.unknown_threshold < s.confidence_threshold

/-! ### Example Corpus & Similarity Index (§4.2) -/

/-- Tokens of a string, as produced by the normalizer's tokenizer. -/
def tokenList (s : String) : List String :=
  (normTokens s.data).map String.mk

/-- Token vocabulary of a string. -/
def tokenFinset (s : String) : Finset String :=
  (tokenList s).toFinset

/-- Modelled from the spec: `inference`'s similarity metric is absent from
the tree; §4.2 allows any symmetric bounded token-overlap metric with
identical-string similarity 1 and disjoint-vocabulary similarity 0.  This is
the Jaccard index over token vocabularies (two empty vocabularies are
identical normalized strings, hence similarity 1). -/
def similarity (a b : String) : ℚ :=
  if tokenFinset a ∪ tokenFinset b = ∅ then 1
  else ((tokenFinset a ∩ tokenFinset b).card : ℚ) / ((tokenFinset a ∪ tokenFinset b).card : ℚ)

/-- The transient view of a corpus Example scored against a query. -/
def neighborOf (q : String) (e : Example) : Neighbor :=
  ⟨e.raw_text, e.category_id, similarity q e.normalized_text⟩

/-- Descending-similarity ordering used to rank neighbors. -/
def simGE (a b : Neighbor) : Prop := b.similarity ≤ a.similarity

instance : DecidableRel simGE :=
  fun a b => inferInstanceAs (Decidable (b.similarity ≤ a.similarity))

instance : IsTotal Neighbor simGE := ⟨fun a b => le_total b.similarity a.similarity⟩

instance : IsTrans Neighbor simGE := ⟨fun _ _ _ hab hbc => le_trans hbc hab⟩

/-- Modelled from the spec: §4.2 — score every corpus example against the
normalized query and rank descending by similarity, ties kept in corpus
insertion order (stable insertion sort). -/
def rankCorpus (corpus : List Example) (q : String) : List Neighbor :=
  List.insertionSort simGE (corpus.map (neighborOf q))

/-- Modelled from the spec: §4.2 — the top-k most similar examples. -/
def topNeighbors (s : Settings) (corpus : List Example) (q : String) : List Neighbor :=
  (rankCorpus corpus q).take s.k

/-! ### Keyword Matcher (§4.3) -/

/-- Modelled from the spec: §4.3 — scan the normalized query for each
category's keywords (token match); ambiguous evidence from several
categories is preserved.  Result maps matched keyword to owning category. -/
def keywordMatches (tax : Taxonomy) (q : String) : List (String × String) :=
  tax.categories.flatMap (fun c =>
    (c.keywords.filter (fun kw => (tokenList q).contains kw)).map (fun kw => (kw, c.id)))

/-! ### Confidence Aggregator (§4.4) -/

/-- Similarity-weighted vote mass of one category among the neighbors. -/
def voteWeight (ns : List Neighbor) (cid : String) : ℚ :=
  ((ns.filter (fun n => decide (n.category_id = cid))).map Neighbor.similarity).sum

/-- The distinct category ids appearing among the neighbors. -/
def candidates (ns : List Neighbor) : List String :=
  (ns.map Neighbor.category_id).dedup

/-- Modelled from the spec: §4.4 tie-break — prefer the category of the
single nearest neighbor, then lexical id order. -/
def tieBreak (ns : List Neighbor) (a b : String) : Bool :=
  match ns.head? with
  | some n =>
      if a = n.category_id ∧ b ≠ n.category_id then true
      else if b = n.category_id ∧ a ≠ n.category_id then false
      else decide (a < b)
  | none => decide (a < b)

/-- `true` when category `a` beats category `b` under the §4.4 policy. -/
def better (ns : List Neighbor) (a b : String) : Bool :=
  if voteWeight ns a = voteWeight ns b then tieBreak ns a b
  else decide (voteWeight ns b < voteWeight ns a)

/-- Modelled from the spec: §4.4 — arg-max of the similarity-weighted
plurality vote with deterministic tie-breaks; `none` on zero evidence. -/
def pickBest (ns : List Neighbor) : Option String :=
  match candidates ns with
  | [] => none
  | c :: cs => some (cs.foldl (fun best c2 => if better ns c2 best then c2 else best) c)

/-- Bounded increment added when keyword evidence agrees with the winner. -/
def KEYWORD_BOOST : ℚ := 1 / 10

/-- Modelled from the spec: §4.4 — the winning weighted sum normalized by
`k`, plus a bounded boost for agreeing keyword evidence, clamped into
`[0, 1]`. -/
def confidenceOf (s : Settings) (ns : List Neighbor) (kws : List (String × String))
    (cid : String) : ℚ :=
  min 1 (voteWeight ns cid / (s.k : ℚ) +
    (if kws.any (fun p => decide (p.2 = cid)) then KEYWORD_BOOST else 0))

/-! ### Abstention Policy (§4.5) & Explanation Builder (§4.6) -/

/-- Deterministic rationale string summarizing the dominant evidence. -/
def mkRationale (ns : List Neighbor) (kws : List (String × String)) (cid : String) : String :=
  "best category " ++ cid ++ " from " ++ toString ns.length ++ " neighbors and "
    ++ toString kws.length ++ " keyword hits"

/-- Display name of a category id in the active taxonomy. -/
def categoryName (tax : Taxonomy) (cid : String) : String :=
  ((tax.categories.find? (fun c => c.id == cid)).map Category.name).getD cid

/-- Modelled from the spec: §4.5 abstention plus §4.6 explanation builder —
assemble the final record, overriding the prediction with the unknown
sentinel when confidence falls below `unknown_threshold` and flagging low
confidence below `confidence_threshold`. -/
def finishResult (s : Settings) (d : String) (ns : List Neighbor)
    (kws : List (String × String)) (cid : String) (cname : String) (conf : ℚ) :
    PredictionResult :=
  let unk := decide (conf < s.unknown_threshold)
  ⟨d,
   if unk then UNKNOWN_ID else cid,
   if unk then UNKNOWN_NAME else cname,
   conf,
   decide (conf < s.confidence_threshold),
   unk,
   ⟨ns, kws, mkRationale ns kws cid⟩⟩

/-- Modelled from the spec: `inference.predict_with_confidence` is absent
from the tree; §2's control flow — normalize, rank neighbors, match
keywords, aggregate confidence, apply abstention, build explanation. -/
def predict_with_confidence (s : Settings) (tax : Taxonomy) (corpus : List Example)
    (d : String) : PredictionResult :=
  let q := normalize_text d
  let ns := topNeighbors s corpus q
  let kws := keywordMatches tax q
  match pickBest ns with
  | none => finishResult s d ns kws UNKNOWN_ID UNKNOWN_NAME 0
  | some cid => finishResult s d ns kws cid (categoryName tax cid) (confidenceOf s ns kws cid)

/-- Modelled from the spec: `inference.batch_inference` is absent from the
tree; §4.7 — apply the single-item pipeline to each description in order,
independently per item. -/
def batch_inference (s : Settings) (tax : Taxonomy) (corpus : List Example)
    (ds : List String) : List PredictionResult :=
  ds.map (predict_with_confidence s tax corpus)

/-! ### HTTP layer (`mvp/src/api.py`) -/

structure NeighborJson where
  description : String
  category_id : String
  similarity : ℚ
deriving DecidableEq

structure ExplanationJson where
  top_neighbors : List NeighborJson
  keyword_matches : List (String × String)
  rationale : String
deriving DecidableEq

structure PredictResponse where
  description : String
  predicted_category_id : String
  predicted_category_name : String
  confidence : ℚ
  is_low_confidence : Bool
  is_unknown : Bool
  explanation : ExplanationJson
deriving DecidableEq

/-- The response body built by `api.predict` and `api.predict_batch`
(`api.py` lines 64-83 and 98-120): every `PredictionResult` field copied
verbatim, the explanation serialized as a nested dictionary. -/
def toResponse (r : PredictionResult) : PredictResponse :=
  ⟨r.description,
   r.predicted_category_id,
   r.predicted_category_name,
   r.confidence,
   r.is_low_confidence,
   r.is_unknown,
   ⟨r.explanation.top_neighbors.map (fun n => ⟨n.description, n.category_id, n.similarity⟩),
    r.explanation.keyword_matches,
    r.explanation.rationale⟩⟩

/-- `POST /predict` (`api.py` lines 61-83). -/
def predictRoute (s : Settings) (tax : Taxonomy) (corpus : List Example)
    (d : String) : PredictResponse :=
  toResponse (predict_with_confidence s tax corpus d)

/-- One cell of a parsed CSV column, as `pd.read_csv` materializes it. -/
inductive Cell where
  | str (s : String)
  | num (q : ℚ)
  | blank
deriving DecidableEq

/-- String form of a missing value under `astype(str)`. -/
def nanRepr : String := "nan"

/-- `astype(str)` applied to one cell. -/
def cellStr : Cell → String
  | .str s => s
  | .num q => toString q
  | .blank => nanRepr

/-- A parsed dataframe: named columns of cells. -/
structure DataFrame where
  cols : List (String × List Cell)
deriving DecidableEq

def DataFrame.columns (df : DataFrame) : List String :=
  df.cols.map Prod.fst

def DataFrame.getCol (df : DataFrame) (c : String) : List Cell :=
  (df.cols.lookup c).getD []

/-- An uploaded file whose contents parse as a CSV dataframe. -/
structure CsvUpload where
  filename : String
  dataframe : DataFrame
deriving DecidableEq

def csvSuffix : String := ".csv"

def descColumn : String := "description"

def badRequest : Nat := 400

/-- Python's `str.endswith`, on the character data of the strings. -/
def endsWithStr (s sfx : String) : Bool :=
  List.isSuffixOf sfx.data s.data

/-- `POST /predict_batch` (`api.py` lines 86-120), parameterized by the
inference procedure it forwards to, so the rejection paths are manifestly
independent of inference: reject non-`.csv` filenames, then reject parsed
dataframes without a `description` column, else coerce that column to
strings and run batch inference on it. -/
def predictBatchRoute (inf : List String → List PredictionResult)
    (file : CsvUpload) : Except Nat (List PredictResponse) :=
  if !(endsWithStr file.filename csvSuffix) then .error badRequest
  else if descColumn ∉ file.dataframe.columns then .error badRequest
  else .ok ((inf ((file.dataframe.getCol descColumn).map cellStr)).map toResponse)

def jsonSuffix : String := ".json"

def taxonomyFile : String := "taxonomy.json"

def okStatus : String := "ok"

/-- The configuration directory contents: file name to raw bytes. -/
def ConfigStore : Type := String → Option (List Nat)

/-- `POST /upload_taxonomy` (`api.py` lines 128-135): only the `.json`
filename suffix is checked; the uploaded bytes overwrite
`CONFIG_DIR/taxonomy.json` verbatim, with no parsing or validation of the
content; the response is a status-ok string. -/
def uploadTaxonomyRoute (store : ConfigStore) (filename : String)
    (content : List Nat) : Except Nat (ConfigStore × String) :=
  if !(endsWithStr filename jsonSuffix) then .error badRequest
  else .ok (fun p => if p = taxonomyFile then some content else store p, okStatus)

/-! ### Witness fixtures -/

/-- Settings used by concrete witnesses: thresholds 0.5 / 0.2, k = 5. -/
def sW : Settings := ⟨1 / 2, 1 / 5, 5, 0⟩

/-- A two-category taxonomy with no keywords, used by concrete witnesses. -/
def taxW : Taxonomy := ⟨[⟨"C1", "Cat One", []⟩, ⟨"C2", "Cat Two", []⟩]⟩

/-- A one-example corpus used by concrete witnesses. -/
def corpusW : List Example := [⟨"alpha", "alpha", "C1", none, none⟩]

/-- A well-formed CSV upload used by the C9 witness. -/
def fileW : CsvUpload :=
  ⟨"batch.csv", ⟨[(descColumn, [Cell.str "alpha"]), ("amount", [Cell.num 3])]⟩⟩

/-- The corpus refuting the original C6: the exact-match example's category
is outvoted by a heavier similarity-weighted plurality, with no keyword
evidence anywhere. -/
def corpusX : List Example :=
  [⟨"a", "a", "C1", none, none⟩, ⟨"a", "a", "C2", none, none⟩,
   ⟨"a", "a", "C2", none, none⟩]

/-- The neighbors computed for query `a` against `corpusX`. -/
def nsX : List Neighbor := [⟨"a", "C1", 1⟩, ⟨"a", "C2", 1⟩, ⟨"a", "C2", 1⟩]

/-! Character-level facts about `Char.toLower`. -/

theorem toLower_eq_self {c : Char} (h : ¬(65 ≤ c.toNat ∧ c.toNat ≤ 90)) :
    c.toLower = c := by
  unfold Char.toLower
  exact if_neg (by simpa [ge_iff_le] using h)

theorem toNat_toLower_of_upper {c : Char} (h : 65 ≤ c.toNat ∧ c.toNat ≤ 90) :
    c.toLower.toNat = c.toNat + 32 := by
  unfold Char.toLower
  rw [if_pos (by simpa [ge_iff_le] using h)]
  have hv : (c.toNat + 32).isValidChar := Or.inl (by omega)
  rw [Char.ofNat, dif_pos hv]
  rfl

theorem not_upper_toLower (c : Char) :
    ¬(65 ≤ c.toLower.toNat ∧ c.toLower.toNat ≤ 90) := by
  by_cases h : 65 ≤ c.toNat ∧ c.toNat ≤ 90
  · rw [toNat_toLower_of_upper h]
    omega
  · rw [toLower_eq_self h]
    exact h

theorem toLower_idem (c : Char) : c.toLower.toLower = c.toLower :=
  toLower_eq_self (not_upper_toLower c)

/-! Structure of `splitOnP` chunks. -/

theorem mem_splitOnP_sub {α : Type _} (p : α → Bool) (xs : List α) :
    ∀ t ∈ List.splitOnP p xs, ∀ c ∈ t, c ∈ xs ∧ p c = false := by
  induction xs with
  | nil =>
    intro t ht c hc
    have ht' : t = [] := by
      simpa [List.splitOnP, List.splitOnP.go] using ht
    subst ht'
    simp at hc
  | cons x xs ih =>
    intro t ht c hc
    rw [List.splitOnP_cons] at ht
    by_cases hx : p x = true
    · rw [if_pos hx] at ht
      rcases List.mem_cons.mp ht with h1 | h2
      · subst h1; simp at hc
      · obtain ⟨hcx, hpc⟩ := ih t h2 c hc
        exact ⟨List.mem_cons_of_mem _ hcx, hpc⟩
    · rw [if_neg hx] at ht
      rcases hsp : List.splitOnP p xs with _ | ⟨t0, rest⟩
      · exact absurd hsp (List.splitOnP_ne_nil _ _)
      · rw [hsp, List.modifyHead_cons] at ht
        rcases List.mem_cons.mp ht with h1 | h2
        · subst h1
          rcases List.mem_cons.mp hc with h1c | h2c
          · subst h1c
            exact ⟨List.mem_cons_self _ _, Bool.eq_false_iff.mpr (fun hb => hx hb)⟩
          · obtain ⟨hcx, hpc⟩ :=
              ih t0 (by rw [hsp]; exact List.mem_cons_self t0 rest) c h2c
            exact ⟨List.mem_cons_of_mem _ hcx, hpc⟩
        · obtain ⟨hcx, hpc⟩ :=
            ih t (by rw [hsp]; exact List.mem_cons_of_mem _ h2) c hc
          exact ⟨List.mem_cons_of_mem _ hcx, hpc⟩

theorem tokenizeChars_sub (l : List Char) :
    ∀ t ∈ tokenizeChars l, t ≠ [] ∧ ∀ c ∈ t, isWordChar c = true ∧ c ∈ l := by
  intro t ht
  unfold tokenizeChars at ht
  rw [List.mem_filter] at ht
  obtain ⟨hsp, hne⟩ := ht
  refine ⟨by simpa using hne, ?_⟩
  intro c hc
  obtain ⟨hcl, hpc⟩ := mem_splitOnP_sub (fun c => !isWordChar c) l t hsp c hc
  exact ⟨by simpa using hpc, hcl⟩

/-! Rebuilding tokens from a normalized string. -/

theorem intercalate_cons_cons (s : Char) (t t2 : List Char) (ts : List (List Char)) :
    List.intercalate [s] (t :: t2 :: ts) = t ++ s :: List.intercalate [s] (t2 :: ts) := by
  simp [List.intercalate, List.intersperse]

theorem mem_intercalate_single {c s : Char} :
    ∀ (ts : List (List Char)), c ∈ List.intercalate [s] ts →
      c = s ∨ ∃ t ∈ ts, c ∈ t := by
  intro ts
  induction ts with
  | nil => intro h; simp [List.intercalate] at h
  | cons t ts ih =>
    cases ts with
    | nil =>
      intro h
      rw [show List.intercalate [s] [t] = t by simp [List.intercalate]] at h
      exact Or.inr ⟨t, List.mem_cons_self _ _, h⟩
    | cons t2 ts2 =>
      intro h
      rw [intercalate_cons_cons] at h
      rcases List.mem_append.mp h with h1 | h2
      · exact Or.inr ⟨t, List.mem_cons_self _ _, h1⟩
      · rcases List.mem_cons.mp h2 with h3 | h4
        · exact Or.inl h3
        · rcases ih h4 with h5 | ⟨t3, ht3, hct3⟩
          · exact Or.inl h5
          · exact Or.inr ⟨t3, List.mem_cons_of_mem _ ht3, hct3⟩

theorem tokenizeChars_intercalate :
    ∀ (ts : List (List Char)),
      (∀ t ∈ ts, t ≠ []) →
      (∀ t ∈ ts, ∀ c ∈ t, isWordChar c = true) →
      tokenizeChars (List.intercalate [' '] ts) = ts := by
  intro ts
  induction ts with
  | nil =>
    intro _ _
    simp [List.intercalate, tokenizeChars, List.splitOnP, List.splitOnP.go]
  | cons t ts ih =>
    intro h1 h2
    have htne : t ≠ [] := h1 t (List.mem_cons_self _ _)
    have htw : ∀ c ∈ t, isWordChar c = true := h2 t (List.mem_cons_self _ _)
    cases ts with
    | nil =>
      rw [show List.intercalate [' '] [t] = t by simp [List.intercalate]]
      unfold tokenizeChars
      rw [List.splitOnP_eq_single _ _ (fun x hx => by simp [htw x hx])]
      cases t with
      | nil => exact absurd rfl htne
      | cons c cs => rfl
    | cons t2 ts2 =>
      rw [intercalate_cons_cons]
      unfold tokenizeChars
      rw [List.splitOnP_first _ _ (fun x hx => by simp [htw x hx]) ' ' (by decide)]
      have ihr := ih (fun u hu => h1 u (List.mem_cons_of_mem _ hu))
        (fun u hu => h2 u (List.mem_cons_of_mem _ hu))
      unfold tokenizeChars at ihr
      simp only [List.filter]
      rw [show (!t.isEmpty) = true by simp [htne]]
      rw [ihr]

theorem map_toLower_normalizeChars (l : List Char) :
    (normalizeChars l).map Char.toLower = normalizeChars l := by
  unfold normalizeChars
  apply List.map_congr_left (g := id) ?_ |>.trans (List.map_id _)
  intro c hc
  rcases mem_intercalate_single (normTokens l) hc with h | ⟨t, ht, hct⟩
  · subst h; decide
  · obtain ⟨-, hall⟩ := tokenizeChars_sub (l.map Char.toLower) t ht
    obtain ⟨-, hmem⟩ := hall c hct
    obtain ⟨a, -, rfl⟩ := List.mem_map.mp hmem
    exact toLower_idem a

theorem normalizeChars_idem (l : List Char) :
    normalizeChars (normalizeChars l) = normalizeChars l := by
  conv_lhs => rw [normalizeChars, normTokens, map_toLower_normalizeChars]
  rw [show normalizeChars l = List.intercalate [' '] (normTokens l) from rfl]
  rw [tokenizeChars_intercalate (normTokens l)
      (fun t ht => (tokenizeChars_sub _ t ht).1)
      (fun t ht c hc => ((tokenizeChars_sub _ t ht).2 c hc).1)]

theorem normalize_text_idem (s : String) :
    normalize_text (normalize_text s) = normalize_text s := by
  unfold normalize_text
  rw [show (String.mk (normalizeChars s.data)).data = normalizeChars s.data from rfl]
  rw [normalizeChars_idem]

/-! ### Supporting lemmas: similarity bounds -/

theorem similarity_nonneg (a b : String) : 0 ≤ similarity a b := by
  unfold similarity
  split
  · norm_num
  · exact div_nonneg (Nat.cast_nonneg _) (Nat.cast_nonneg _)

theorem similarity_le_one (a b : String) : similarity a b ≤ 1 := by
  unfold similarity
  split
  · exact le_refl 1
  · rename_i h
    rw [div_le_one (by
      exact_mod_cast Nat.pos_of_ne_zero
        (Finset.card_ne_zero.mpr (Finset.nonempty_iff_ne_empty.mpr h)))]
    exact_mod_cast Finset.card_le_card Finset.inter_subset_union

theorem similarity_self (a : String) : similarity a a = 1 := by
  unfold similarity
  rw [Finset.union_self, Finset.inter_self]
  split
  · rfl
  · rename_i h
    rw [div_self]
    exact_mod_cast Finset.card_ne_zero.mpr (Finset.nonempty_iff_ne_empty.mpr h)

/-! ### Supporting lemmas: neighbor ranking -/

theorem sorted_rankCorpus (corpus : List Example) (q : String) :
    List.Sorted simGE (rankCorpus corpus q) :=
  List.sorted_insertionSort simGE _

theorem mem_rankCorpus {corpus : List Example} {q : String} {n : Neighbor} :
    n ∈ rankCorpus corpus q ↔ ∃ e ∈ corpus, n = neighborOf q e := by
  unfold rankCorpus
  rw [(List.perm_insertionSort simGE _).mem_iff, List.mem_map]
  constructor
  · rintro ⟨e, he, rfl⟩
    exact ⟨e, he, rfl⟩
  · rintro ⟨e, he, rfl⟩
    exact ⟨e, he, rfl⟩

theorem mem_topNeighbors {s : Settings} {corpus : List Example} {q : String} {n : Neighbor}
    (h : n ∈ topNeighbors s corpus q) : ∃ e ∈ corpus, n = neighborOf q e :=
  mem_rankCorpus.mp (List.take_subset _ _ h)

theorem topNeighbors_sim_nonneg {s : Settings} {corpus : List Example} {q : String}
    {n : Neighbor} (h : n ∈ topNeighbors s corpus q) : 0 ≤ n.similarity := by
  obtain ⟨e, -, rfl⟩ := mem_topNeighbors h
  exact similarity_nonneg _ _

/-! ### Supporting lemmas: vote aggregation -/

theorem voteWeight_nonneg {ns : List Neighbor} (cid : String)
    (h : ∀ n ∈ ns, 0 ≤ n.similarity) : 0 ≤ voteWeight ns cid := by
  apply List.sum_nonneg
  intro x hx
  obtain ⟨n, hn, rfl⟩ := List.mem_map.mp hx
  exact h n (List.mem_filter.mp hn).1

theorem confidenceOf_nonneg (s : Settings) {ns : List Neighbor}
    (kws : List (String × String)) (cid : String)
    (h : ∀ n ∈ ns, 0 ≤ n.similarity) : 0 ≤ confidenceOf s ns kws cid := by
  unfold confidenceOf
  apply le_min (by norm_num)
  apply add_nonneg (div_nonneg (voteWeight_nonneg cid h) (Nat.cast_nonneg _))
  split
  · norm_num [KEYWORD_BOOST]
  · exact le_refl 0

theorem confidenceOf_le_one (s : Settings) (ns : List Neighbor)
    (kws : List (String × String)) (cid : String) :
    confidenceOf s ns kws cid ≤ 1 :=
  min_le_left _ _

theorem candidates_sub {ns : List Neighbor} {c : String} (h : c ∈ candidates ns) :
    ∃ n ∈ ns, n.category_id = c := by
  obtain ⟨n, hn, he⟩ := List.mem_map.mp (List.dedup_subset _ h)
  exact ⟨n, hn, he⟩

theorem better_true_of_lt {ns : List Neighbor} {a b : String}
    (h : voteWeight ns b < voteWeight ns a) : better ns a b = true := by
  unfold better
  rw [if_neg (fun he => absurd he (ne_of_gt h))]
  exact decide_eq_true h

theorem better_false_of_lt {ns : List Neighbor} {a b : String}
    (h : voteWeight ns a < voteWeight ns b) : better ns a b = false := by
  unfold better
  rw [if_neg (fun he => absurd he (ne_of_lt h))]
  exact decide_eq_false (not_lt.mpr (le_of_lt h))

theorem foldl_pick_mem (ns : List Neighbor) :
    ∀ (cs : List String) (acc : String),
      cs.foldl (fun best c2 => if better ns c2 best then c2 else best) acc = acc ∨
      cs.foldl (fun best c2 => if better ns c2 best then c2 else best) acc ∈ cs := by
  intro cs
  induction cs with
  | nil => intro acc; exact Or.inl rfl
  | cons c cs ih =>
    intro acc
    simp only [List.foldl]
    rcases ih (if better ns c acc then c else acc) with h | h
    · rw [h]
      by_cases hb : better ns c acc = true
      · rw [if_pos hb]
        exact Or.inr (List.mem_cons_self _ _)
      · rw [if_neg hb]
        exact Or.inl rfl
    · exact Or.inr (List.mem_cons_of_mem _ h)

theorem pickBest_mem {ns : List Neighbor} {c : String} (h : pickBest ns = some c) :
    c ∈ candidates ns := by
  unfold pickBest at h
  rcases hc : candidates ns with _ | ⟨c0, cs⟩ <;> rw [hc] at h
  · cases h
  · obtain he := Option.some.inj h
    rcases foldl_pick_mem ns cs c0 with h2 | h2
    · rw [he] at h2
      exact h2 ▸ List.mem_cons_self _ _
    · rw [he] at h2
      exact List.mem_cons_of_mem _ h2

theorem foldl_pick_eq (ns : List Neighbor) (w : String) :
    ∀ (cs : List String) (acc : String),
      (acc = w ∨ w ∈ cs) →
      (∀ c, (c = acc ∨ c ∈ cs) → c ≠ w → voteWeight ns c < voteWeight ns w) →
      cs.foldl (fun best c2 => if better ns c2 best then c2 else best) acc = w := by
  intro cs
  induction cs with
  | nil =>
    intro acc hin _
    rcases hin with h | h
    · exact h
    · simp at h
  | cons c cs ih =>
    intro acc hin hlt
    simp only [List.foldl]
    have hsub : ∀ c2, (c2 = (if better ns c acc then c else acc) ∨ c2 ∈ cs) →
        c2 ≠ w → voteWeight ns c2 < voteWeight ns w := by
      intro c2 hc2 hc2w
      rcases hc2 with h | h
      · by_cases hb : better ns c acc = true
        · rw [if_pos hb] at h
          exact hlt c2 (Or.inr (h ▸ List.mem_cons_self _ _)) hc2w
        · rw [if_neg hb] at h
          exact hlt c2 (Or.inl h) hc2w
      · exact hlt c2 (Or.inr (List.mem_cons_of_mem _ h)) hc2w
    apply ih _ _ hsub
    by_cases hcw : c = w
    · subst hcw
      left
      by_cases haccw : acc = c
      · rw [haccw]
        split <;> rfl
      · have hlt' : voteWeight ns acc < voteWeight ns c :=
          hlt acc (Or.inl rfl) haccw
        rw [better_true_of_lt hlt']
        simp
    · rcases hin with haw | hw
      · subst haw
        left
        have hlt' : voteWeight ns c < voteWeight ns acc :=
          hlt c (Or.inr (List.mem_cons_self _ _)) hcw
        rw [better_false_of_lt hlt']
        simp
      · rcases List.mem_cons.mp hw with h | h
        · exact absurd h.symm hcw
        · exact Or.inr h

theorem pickBest_eq_of_strict {ns : List Neighbor} {w : String}
    (hmem : w ∈ candidates ns)
    (hstrict : ∀ c ∈ candidates ns, c ≠ w → voteWeight ns c < voteWeight ns w) :
    pickBest ns = some w := by
  unfold pickBest
  rcases hc : candidates ns with _ | ⟨c0, cs⟩
  · rw [hc] at hmem; simp at hmem
  · rw [hc] at hmem hstrict
    refine congrArg some (foldl_pick_eq ns w cs c0 ?_ ?_)
    · rcases List.mem_cons.mp hmem with h | h
      · exact Or.inl h.symm
      · exact Or.inr h
    · intro c hcin hcw
      rcases hcin with h | h
      · exact hstrict c (h ▸ List.mem_cons_self _ _) hcw
      · exact hstrict c (List.mem_cons_of_mem _ h) hcw

/-! ### Supporting lemmas: the assembled result -/

theorem finishResult_confidence (s : Settings) (d : String) (ns : List Neighbor)
    (kws : List (String × String)) (cid cname : String) (conf : ℚ) :
    (finishResult s d ns kws cid cname conf).confidence = conf := rfl

theorem finishResult_is_unknown (s : Settings) (d : String) (ns : List Neighbor)
    (kws : List (String × String)) (cid cname : String) (conf : ℚ) :
    (finishResult s d ns kws cid cname conf).is_unknown =
      decide (conf < s.unknown_threshold) := rfl

theorem finishResult_is_low (s : Settings) (d : String) (ns : List Neighbor)
    (kws : List (String × String)) (cid cname : String) (conf : ℚ) :
    (finishResult s d ns kws cid cname conf).is_low_confidence =
      decide (conf < s.confidence_threshold) := rfl

theorem finishResult_id (s : Settings) (d : String) (ns : List Neighbor)
    (kws : List (String × String)) (cid cname : String) (conf : ℚ) :
    (finishResult s d ns kws cid cname conf).predicted_category_id =
      if conf < s.unknown_threshold then UNKNOWN_ID else cid := by
  simp [finishResult]

theorem finishResult_neighbors (s : Settings) (d : String) (ns : List Neighbor)
    (kws : List (String × String)) (cid cname : String) (conf : ℚ) :
    (finishResult s d ns kws cid cname conf).explanation.top_neighbors = ns := rfl

theorem predict_cases (s : Settings) (tax : Taxonomy) (corpus : List Example)
    (d : String) :
    predict_with_confidence s tax corpus d =
      (match pickBest (topNeighbors s corpus (normalize_text d)) with
       | none =>
           finishResult s d (topNeighbors s corpus (normalize_text d))
             (keywordMatches tax (normalize_text d)) UNKNOWN_ID UNKNOWN_NAME 0
       | some cid =>
           finishResult s d (topNeighbors s corpus (normalize_text d))
             (keywordMatches tax (normalize_text d)) cid (categoryName tax cid)
             (confidenceOf s (topNeighbors s corpus (normalize_text d))
               (keywordMatches tax (normalize_text d)) cid)) := rfl

theorem topNeighbors_nil (s : Settings) (q : String) :
    topNeighbors s [] q = [] := by
  simp [topNeighbors, rankCorpus]

theorem predict_empty (s : Settings) (tax : Taxonomy) (d : String) :
    predict_with_confidence s tax [] d =
      finishResult s d [] (keywordMatches tax (normalize_text d))
        UNKNOWN_ID UNKNOWN_NAME 0 := by
  rw [predict_cases, topNeighbors_nil]
  rfl

/-! ### Claims -/

/-- Claim C1: for every input description, the `confidence` field of the
`PredictionResult` returned by `predict_with_confidence` lies in the closed
interval `[0, 1]`. -/
theorem claim1_confidence_unit_interval (s : Settings) (tax : Taxonomy)
    (corpus : List Example) (d : String) :
    0 ≤ (predict_with_confidence s tax corpus d).confidence ∧
      (predict_with_confidence s tax corpus d).confidence ≤ 1 := by
  rw [predict_cases]
  split
  · rw [finishResult_confidence]
    norm_num
  · rw [finishResult_confidence]
    exact ⟨confidenceOf_nonneg _ _ _ (fun n hn => topNeighbors_sim_nonneg hn),
      confidenceOf_le_one _ _ _ _⟩

/-- Claim C2: `is_unknown` holds iff confidence is below `unknown_threshold`,
`is_low_confidence` holds iff confidence is below `confidence_threshold`, and
given the configured threshold ordering, `is_unknown` implies
`is_low_confidence`. -/
theorem claim2_abstention_flags (s : Settings) (tax : Taxonomy)
    (corpus : List Example) (d : String) :
    ((predict_with_confidence s tax corpus d).is_unknown = true ↔
      (predict_with_confidence s tax corpus d).confidence < s.unknown_threshold) ∧
    ((predict_with_confidence s tax corpus d).is_low_confidence = true ↔
      (predict_with_confidence s tax corpus d).confidence < s.confidence_threshold) ∧
    (s.unknown_threshold < s.confidence_threshold →
      (predict_with_confidence s tax corpus d).is_unknown = true →
      (predict_with_confidence s tax corpus d).is_low_confidence = true) := by
  rw [predict_cases]
  split <;>
  · simp only [finishResult_is_unknown, finishResult_is_low, finishResult_confidence,
      decide_eq_true_eq]
    exact ⟨trivial, trivial, fun hord hunk => lt_trans hunk hord⟩

/-- Witness for C2 at concrete inputs: with an empty corpus and ordered
thresholds, the returned prediction is flagged low-confidence because it is
flagged unknown. -/
theorem claim2_abstention_flags_witness :
    (predict_with_confidence sW taxW [] ("mystery")).is_low_confidence = true := by
  refine (claim2_abstention_flags sW taxW [] ("mystery")).2.2 (by norm_num [sW]) ?_
  rw [predict_empty, finishResult_is_unknown]
  simp only [decide_eq_true_eq]
  norm_num [sW]

/-- Claim C4: batch inference returns exactly one result per input
description, in input order, and the i-th result equals single-item
prediction of the i-th description. -/
theorem claim4_batch_matches_single (s : Settings) (tax : Taxonomy)
    (corpus : List Example) (ds : List String) :
    (batch_inference s tax corpus ds).length = ds.length ∧
      ∀ i : Nat, (batch_inference s tax corpus ds)[i]? =
        (ds[i]?).map (predict_with_confidence s tax corpus) := by
  refine ⟨List.length_map _ _, fun i => ?_⟩
  unfold batch_inference
  rw [List.getElem?_map]

/-- Claim C5: the normalizer is a total deterministic function — the empty
string normalizes to the empty string — and it is idempotent. -/
theorem claim5_normalizer_total_idempotent :
    normalize_text ("") = ("") ∧
      ∀ x : String, normalize_text (normalize_text x) = normalize_text x :=
  ⟨by decide, normalize_text_idem⟩

/-- Claim C7: with an empty example corpus (and validated configuration),
prediction succeeds on every input, is flagged unknown, and carries an empty
neighbor list. -/
theorem claim7_empty_corpus_unknown (s : Settings) (tax : Taxonomy) (d : String)
    (hv : s.valid) :
    (predict_with_confidence s tax [] d).is_unknown = true ∧
      (predict_with_confidence s tax [] d).explanation.top_neighbors = [] := by
  rw [predict_empty]
  refine ⟨?_, rfl⟩
  rw [finishResult_is_unknown]
  exact decide_eq_true hv.1

/-- Witness for C7: concrete empty-corpus prediction. -/
theorem claim7_empty_corpus_unknown_witness :
    (predict_with_confidence sW taxW [] ("anything")).is_unknown = true ∧
      (predict_with_confidence sW taxW [] ("anything")).explanation.top_neighbors = [] :=
  claim7_empty_corpus_unknown sW taxW ("anything")
    (by constructor <;> norm_num [sW, Settings.valid])

/-- Claim C8: the `/predict` endpoint passes every field of the core's
`PredictionResult` through to its response unmodified, including each
neighbor of the explanation and the keyword matches and rationale. -/
theorem claim8_predict_passthrough (s : Settings) (tax : Taxonomy)
    (corpus : List Example) (d : String) :
    (predictRoute s tax corpus d).description =
        (predict_with_confidence s tax corpus d).description ∧
    (predictRoute s tax corpus d).predicted_category_id =
        (predict_with_confidence s tax corpus d).predicted_category_id ∧
    (predictRoute s tax corpus d).predicted_category_name =
        (predict_with_confidence s tax corpus d).predicted_category_name ∧
    (predictRoute s tax corpus d).confidence =
        (predict_with_confidence s tax corpus d).confidence ∧
    (predictRoute s tax corpus d).is_low_confidence =
        (predict_with_confidence s tax corpus d).is_low_confidence ∧
    (predictRoute s tax corpus d).is_unknown =
        (predict_with_confidence s tax corpus d).is_unknown ∧
    (predictRoute s tax corpus d).explanation.top_neighbors =
        (predict_with_confidence s tax corpus d).explanation.top_neighbors.map
          (fun n => ⟨n.description, n.category_id, n.similarity⟩) ∧
    (predictRoute s tax corpus d).explanation.keyword_matches =
        (predict_with_confidence s tax corpus d).explanation.keyword_matches ∧
    (predictRoute s tax corpus d).explanation.rationale =
        (predict_with_confidence s tax corpus d).explanation.rationale :=
  ⟨rfl, rfl, rfl, rfl, rfl, rfl, rfl, rfl, rfl⟩

/-- Claim C3: under validated configuration, corpus referential integrity,
and a sentinel reserved outside the taxonomy, every returned
`predicted_category_id` is a valid taxonomy id or the unknown sentinel, and
`is_unknown` holds iff the sentinel is the returned id. -/
theorem claim3_prediction_target (s : Settings) (tax : Taxonomy)
    (corpus : List Example) (d : String)
    (hv : s.valid)
    (hint : ∀ e ∈ corpus, e.category_id ∈ tax.ids)
    (hsent : UNKNOWN_ID ∉ tax.ids) :
    ((predict_with_confidence s tax corpus d).predicted_category_id ∈ tax.ids ∨
      (predict_with_confidence s tax corpus d).predicted_category_id = UNKNOWN_ID) ∧
    ((predict_with_confidence s tax corpus d).is_unknown = true ↔
      (predict_with_confidence s tax corpus d).predicted_category_id = UNKNOWN_ID) := by
  rw [predict_cases]
  split
  · constructor
    · right
      rw [finishResult_id, ite_self]
    · rw [finishResult_is_unknown, finishResult_id, ite_self]
      simp only [decide_eq_true_eq]
      exact ⟨fun _ => trivial, fun _ => hv.1⟩
  · rename_i cid hsome
    have hcid : cid ∈ tax.ids := by
      obtain ⟨n, hn, hne⟩ := candidates_sub (pickBest_mem hsome)
      obtain ⟨e, he, rfl⟩ := mem_topNeighbors hn
      have hcat : (neighborOf (normalize_text d) e).category_id = e.category_id := rfl
      rw [← hne, hcat]
      exact hint e he
    have hne2 : cid ≠ UNKNOWN_ID := fun h => hsent (h ▸ hcid)
    simp only [finishResult_is_unknown, finishResult_id, decide_eq_true_eq]
    by_cases hu : confidenceOf s (topNeighbors s corpus (normalize_text d))
        (keywordMatches tax (normalize_text d)) cid < s.unknown_threshold
    · rw [if_pos hu]
      exact ⟨Or.inr rfl, fun _ => rfl, fun _ => hu⟩
    · rw [if_neg hu]
      exact ⟨Or.inl hcid, fun h => absurd h hu, fun h => absurd h hne2⟩

/-- Witness for C3 at concrete inputs. -/
theorem claim3_prediction_target_witness :
    ((predict_with_confidence sW taxW corpusW ("alpha")).predicted_category_id ∈ taxW.ids ∨
      (predict_with_confidence sW taxW corpusW ("alpha")).predicted_category_id = UNKNOWN_ID) ∧
    ((predict_with_confidence sW taxW corpusW ("alpha")).is_unknown = true ↔
      (predict_with_confidence sW taxW corpusW ("alpha")).predicted_category_id = UNKNOWN_ID) :=
  claim3_prediction_target sW taxW corpusW ("alpha")
    (by constructor <;> norm_num [sW, Settings.valid])
    (by decide) (by decide)

/-- Claim C9: the `/predict_batch` endpoint rejects non-`.csv` filenames and
parsed CSVs lacking a `description` column with HTTP 400 independently of
the inference procedure, and otherwise passes the string-coerced description
column to batch inference. -/
theorem claim9_batch_csv_validation (file : CsvUpload) :
    (endsWithStr file.filename csvSuffix = false →
      ∀ inf : List String → List PredictionResult,
        predictBatchRoute inf file = .error badRequest) ∧
    (descColumn ∉ file.dataframe.columns →
      ∀ inf : List String → List PredictionResult,
        predictBatchRoute inf file = .error badRequest) ∧
    (endsWithStr file.filename csvSuffix = true →
      descColumn ∈ file.dataframe.columns →
      ∀ inf : List String → List PredictionResult,
        predictBatchRoute inf file =
          .ok ((inf ((file.dataframe.getCol descColumn).map cellStr)).map toResponse)) := by
  refine ⟨fun h inf => ?_, fun h inf => ?_, fun h1 h2 inf => ?_⟩
  · unfold predictBatchRoute
    rw [h]
    rfl
  · unfold predictBatchRoute
    by_cases hb : (!endsWithStr file.filename csvSuffix) = true
    · rw [if_pos hb]
    · rw [if_neg hb, if_pos h]
  · unfold predictBatchRoute
    simp [h1, h2]

/-- Witness for C9: a valid upload is forwarded to inference. -/
theorem claim9_batch_csv_validation_witness :
    predictBatchRoute (fun _ => []) fileW = .ok [] :=
  (claim9_batch_csv_validation fileW).2.2 (by decide) (by decide) (fun _ => [])

/-- Claim C10: the `/upload_taxonomy` endpoint validates only the `.json`
filename suffix; accepted uploads overwrite the active taxonomy file with
the uploaded bytes verbatim (no content validation) and return status ok. -/
theorem claim10_upload_validates_suffix_only (store : ConfigStore)
    (filename : String) (content : List Nat) :
    (endsWithStr filename jsonSuffix = true →
      uploadTaxonomyRoute store filename content =
        .ok (fun p => if p = taxonomyFile then some content else store p, okStatus)) ∧
    (endsWithStr filename jsonSuffix = false →
      uploadTaxonomyRoute store filename content = .error badRequest) := by
  constructor <;> intro h <;> simp [uploadTaxonomyRoute, h]

/-- Witness for C10: bytes that are not valid JSON are stored verbatim. -/
theorem claim10_upload_validates_suffix_only_witness :
    uploadTaxonomyRoute (fun _ => none) ("tax.json") [123, 34, 120] =
      .ok (fun p => if p = taxonomyFile then some [123, 34, 120] else none, okStatus) :=
  (claim10_upload_validates_suffix_only (fun _ => none) ("tax.json") [123, 34, 120]).1
    (by decide)

/-! ### Claim C6: exact-match behaviour -/

theorem predict_neighbors (s : Settings) (tax : Taxonomy) (corpus : List Example)
    (d : String) :
    (predict_with_confidence s tax corpus d).explanation.top_neighbors =
      topNeighbors s corpus (normalize_text d) := by
  rw [predict_cases]
  split <;> rw [finishResult_neighbors]

theorem head_take_pos {k : Nat} (hk : 0 < k) (a : Neighbor) (l : List Neighbor) :
    (List.take k (a :: l)).head? = some a := by
  cases k with
  | zero => omega
  | succ m => rw [List.take_succ_cons]; rfl

/-- Claim C6, amended: if the normalized input is exactly the normalized
text of a corpus example `e` (with at least one neighbor requested), the top
neighbor of the explanation has similarity 1.0; and the prediction equals
`e.category_id` provided `e`'s category wins the similarity-weighted
plurality vote strictly and the aggregated confidence reaches the unknown
threshold. -/
theorem claim6_exact_match_amended (s : Settings) (tax : Taxonomy)
    (corpus : List Example) (d : String) (e : Example)
    (hk : 0 < s.k) (he : e ∈ corpus)
    (hq : normalize_text d = e.normalized_text) :
    (∃ n : Neighbor,
      ((predict_with_confidence s tax corpus d).explanation.top_neighbors).head? = some n ∧
        n.similarity = 1) ∧
    (e.category_id ∈ candidates (topNeighbors s corpus (normalize_text d)) →
      (∀ c ∈ candidates (topNeighbors s corpus (normalize_text d)),
        c ≠ e.category_id →
          voteWeight (topNeighbors s corpus (normalize_text d)) c <
            voteWeight (topNeighbors s corpus (normalize_text d)) e.category_id) →
      s.unknown_threshold ≤
        confidenceOf s (topNeighbors s corpus (normalize_text d))
          (keywordMatches tax (normalize_text d)) e.category_id →
      (predict_with_confidence s tax corpus d).predicted_category_id = e.category_id) := by
  constructor
  · have hsim : (neighborOf (normalize_text d) e).similarity = 1 := by
      show similarity (normalize_text d) e.normalized_text = 1
      rw [hq]
      exact similarity_self _
    have hmem : neighborOf (normalize_text d) e ∈ rankCorpus corpus (normalize_text d) :=
      mem_rankCorpus.mpr ⟨e, he, rfl⟩
    rcases hr : rankCorpus corpus (normalize_text d) with _ | ⟨h0, t⟩
    · rw [hr] at hmem
      simp at hmem
    · have hsorted := sorted_rankCorpus corpus (normalize_text d)
      rw [hr, List.sorted_cons] at hsorted
      have h0le : h0.similarity ≤ 1 := by
        have h0mem : h0 ∈ rankCorpus corpus (normalize_text d) := by
          rw [hr]; exact List.mem_cons_self _ _
        obtain ⟨e2, -, rfl⟩ := mem_rankCorpus.mp h0mem
        exact similarity_le_one _ _
      have h0ge : 1 ≤ h0.similarity := by
        rw [hr] at hmem
        rcases List.mem_cons.mp hmem with h | h
        · rw [← h, hsim]
        · have := hsorted.1 _ h
          rw [← hsim]
          exact this
      refine ⟨h0, ?_, le_antisymm h0le h0ge⟩
      rw [predict_neighbors]
      unfold topNeighbors
      rw [hr]
      exact head_take_pos hk h0 t
  · intro hcand hstrict hcf
    have hpick := pickBest_eq_of_strict hcand hstrict
    rw [predict_cases]
    rw [show (pickBest (topNeighbors s corpus (normalize_text d))) = some e.category_id
        from hpick]
    rw [show (match some e.category_id with
       | none =>
           finishResult s d (topNeighbors s corpus (normalize_text d))
             (keywordMatches tax (normalize_text d)) UNKNOWN_ID UNKNOWN_NAME 0
       | some cid =>
           finishResult s d (topNeighbors s corpus (normalize_text d))
             (keywordMatches tax (normalize_text d)) cid (categoryName tax cid)
             (confidenceOf s (topNeighbors s corpus (normalize_text d))
               (keywordMatches tax (normalize_text d)) cid)) =
         finishResult s d (topNeighbors s corpus (normalize_text d))
           (keywordMatches tax (normalize_text d)) e.category_id
           (categoryName tax e.category_id)
           (confidenceOf s (topNeighbors s corpus (normalize_text d))
             (keywordMatches tax (normalize_text d)) e.category_id) from rfl]
    rw [finishResult_id, if_neg (not_lt.mpr hcf)]

theorem nsW_eval :
    topNeighbors sW corpusW (normalize_text ("Alpha!")) = [⟨"alpha", "C1", 1⟩] := by
  rw [show normalize_text ("Alpha!") = "alpha" from by decide]
  have h1 : similarity "alpha" "alpha" = 1 := similarity_self _
  show (List.insertionSort simGE (corpusW.map (neighborOf "alpha"))).take sW.k = _
  rw [show corpusW.map (neighborOf "alpha") = [(⟨"alpha", "C1", 1⟩ : Neighbor)] by
    simp [corpusW, neighborOf, h1]]
  rw [show List.insertionSort simGE [(⟨"alpha", "C1", 1⟩ : Neighbor)] =
      [(⟨"alpha", "C1", 1⟩ : Neighbor)] by
    simp [List.insertionSort, List.orderedInsert]]
  rw [List.take_of_length_le (by norm_num [sW])]

theorem kwW_eval : keywordMatches taxW (normalize_text ("Alpha!")) = [] := by decide

theorem confW_eval :
    confidenceOf sW [(⟨"alpha", "C1", 1⟩ : Neighbor)] [] "C1" = 1 / 5 := by
  norm_num [confidenceOf, voteWeight, List.filter_cons, List.sum_cons, sW,
    KEYWORD_BOOST, min_def]

/-- Witness for the amended C6 at concrete inputs: a one-example corpus and
an input normalizing to its example's normalized text, whose category wins
the vote outright. -/
theorem claim6_exact_match_amended_witness :
    (∃ n : Neighbor,
      ((predict_with_confidence sW taxW corpusW ("Alpha!")).explanation.top_neighbors).head? =
          some n ∧ n.similarity = 1) ∧
    (predict_with_confidence sW taxW corpusW ("Alpha!")).predicted_category_id = "C1" := by
  have h := claim6_exact_match_amended sW taxW corpusW ("Alpha!")
    ⟨"alpha", "alpha", "C1", none, none⟩ (by decide) (by decide) (by decide)
  refine ⟨h.1, h.2 ?_ ?_ ?_⟩
  · rw [nsW_eval]
    decide
  · rw [nsW_eval]
    intro c hc hne
    rw [show candidates [(⟨"alpha", "C1", 1⟩ : Neighbor)] = ["C1"] from by decide] at hc
    rcases List.mem_cons.mp hc with h2 | h2
    · exact absurd h2 hne
    · simp at h2
  · rw [nsW_eval, kwW_eval, confW_eval]
    norm_num [sW]

theorem qX_eval : normalize_text ("a") = "a" := by decide

theorem nsX_eval : topNeighbors sW corpusX "a" = nsX := by
  have h1 : similarity "a" "a" = 1 := similarity_self "a"
  show (List.insertionSort simGE (corpusX.map (neighborOf "a"))).take sW.k = nsX
  rw [show corpusX.map (neighborOf "a") = nsX by
    simp [corpusX, neighborOf, h1, nsX]]
  rw [show List.insertionSort simGE nsX = nsX by
    simp [List.insertionSort, List.orderedInsert, nsX, simGE]]
  rw [List.take_of_length_le (by norm_num [nsX, sW])]

theorem candX_eval : candidates nsX = ["C1", "C2"] := by decide

theorem strNeA : ("C1" = "C2") = False := eq_false (by decide)

theorem strNeB : ("C2" = "C1") = False := eq_false (by decide)

theorem voteX_one : voteWeight nsX "C1" = 1 := by
  norm_num [voteWeight, nsX, List.filter_cons, List.sum_cons, strNeA, strNeB]

theorem voteX_two : voteWeight nsX "C2" = 2 := by
  norm_num [voteWeight, nsX, List.filter_cons, List.sum_cons, strNeA, strNeB]

theorem pickX_eval : pickBest nsX = some "C2" := by
  apply pickBest_eq_of_strict
  · rw [candX_eval]
    decide
  · intro c hc hne
    rw [candX_eval] at hc
    rcases List.mem_cons.mp hc with h | h
    · subst h
      rw [voteX_one, voteX_two]
      norm_num
    · rcases List.mem_cons.mp h with h2 | h2
      · exact absurd h2 hne
      · simp at h2

theorem kwX_eval : keywordMatches taxW "a" = [] := by decide

theorem confX_eval :
    confidenceOf sW nsX (keywordMatches taxW "a") "C2" = 2 / 5 := by
  rw [kwX_eval]
  norm_num [confidenceOf, voteX_two, sW, KEYWORD_BOOST, min_def]

theorem predictX_id :
    (predict_with_confidence sW taxW corpusX ("a")).predicted_category_id = "C2" := by
  rw [predict_cases]
  simp only [qX_eval, nsX_eval, pickX_eval]
  rw [finishResult_id, confX_eval, if_neg (by norm_num [sW])]

/-- Counterexample to claim C6 as stated: the input `a` is the exact
normalized text of the first corpus example (category `C1`), no keyword
matches at all (hence no keyword contradiction), yet the returned
`predicted_category_id` is not that example's category — the two heavier
`C2` examples win the similarity-weighted plurality vote. -/
theorem claim6_exact_match_counterexample :
    ((⟨"a", "a", "C1", none, none⟩ : Example) ∈ corpusX) ∧
    normalize_text ("a") = (⟨"a", "a", "C1", none, none⟩ : Example).normalized_text ∧
    keywordMatches taxW (normalize_text ("a")) = [] ∧
    (predict_with_confidence sW taxW corpusX ("a")).predicted_category_id ≠
      (⟨"a", "a", "C1", none, none⟩ : Example).category_id :=
  ⟨by decide, by decide,
   by rw [qX_eval]; exact kwX_eval,
   by rw [predictX_id]; decide⟩

end FinCat
